import Mathlib

/-!
# Verification of the llbuild BuildFile loader contract

Shallow embedding of the declarative build-description loader declared in
src/include/llbuild/BuildSystem/BuildFile.h of swift-llbuild.  The header
declares the entity model (Tool, Target, Node, Task), the delegate protocol
(BuildFileDelegate) and the BuildFile loader interface.  The loader
implementation file (BuildFile.cpp) is not part of the provided sources, so
the loading algorithm itself is modelled from the specification document;
every such definition is marked with a doc comment beginning
"Modelled from the spec:".

Modelling choices:
- C++ virtual methods returning values become function-valued fields
  (e.g. Tool::configureAttribute becomes the field attrOk).
- The delegate notification callbacks (error, loadedTarget, loadedTask) and
  every loader-to-entity configuration call are recorded in an event trace,
  so temporal claims become statements about the trace.
- std::unordered_map keyed collections become association lists with unique
  keys, kept in insertion order; the duplicate-name policy is keep-first
  (a duplicate registration records an error and leaves the collection
  unchanged), the implementation decision the spec asks to be documented.
- uint32_t becomes Nat reduced modulo 2 ^ 32 at the delegate interface.
-/

namespace llbuild

/-- The type used to pass parsed properties to the delegate
(BuildFile.h line 27: vector of pairs of strings). -/
def property_list_type := List (String × String)

/-- Events observable at the delegate / entity boundary during one load.
Each constructor corresponds to one callback or virtual-method call declared
in BuildFile.h.  Task-directed calls carry the creation index of the Task
object they are made on, since distinct Task objects may share a name. -/
inductive Event where
  | errorEvt (message : String)
  | configureClientEvt (name : String) (version : Nat)
      (properties : List (String × String))
  | lookupToolEvt (name : String)
  | lookupNodeEvt (name : String) (isImplicit : Bool)
  | createTaskEvt (id : Nat) (name : String)
  | toolAttrEvt (tool key value : String)
  | nodeAttrEvt (node key value : String)
  | taskAttrEvt (id : Nat) (key value : String)
  | configureInputsEvt (id : Nat) (inputs : List String)
  | configureOutputsEvt (id : Nat) (outputs : List String)
  | loadedTargetEvt (name : String)
  | loadedTaskEvt (id : Nat) (name : String)
deriving DecidableEq, Repr

/-- Abstract tool definition (BuildFile.h lines 32-54).  The virtual
configureAttribute is the field attrOk; createTask produces a Task whose own
virtual configureAttribute behaviour is given by taskAttrOk, keyed by the
created task name. -/
structure Tool where
  name : String
  attrOk : String → String → Bool
  taskAttrOk : String → String → String → Bool

/-- A Target declares a name and the list of node names that should be
computed to build it (BuildFile.h lines 58-72). -/
structure Target where
  name : String
  nodeNames : List String
deriving DecidableEq, Repr

/-- Abstract node definition (BuildFile.h lines 75-92); the virtual
configureAttribute is the field attrOk. -/
structure Node where
  name : String
  attrOk : String → String → Bool

/-- A task record as assembled by the loader (BuildFile.h lines 95-118).
The id is the creation index of the Task object; inputs and outputs hold the
names of the resolved input and output Nodes passed to configureInputs and
configureOutputs. -/
structure Task where
  id : Nat
  name : String
  toolName : String
  inputs : List String
  outputs : List String
deriving DecidableEq, Repr

/-- The delegate protocol (BuildFile.h lines 120-164).  The three
value-returning callbacks become fields; error, loadedTarget and loadedTask
are pure notifications and are modelled as trace events.  configureClient
receives the version as a uint32_t, modelled as a Nat below 2 ^ 32. -/
structure BuildFileDelegate where
  configureClient : String → Nat → List (String × String) → Bool
  lookupTool : String → Option Tool
  lookupNode : String → Bool → Option Node

/-- The default value of the isImplicit parameter of
BuildFileDelegate::lookupNode (BuildFile.h line 163: bool isImplicit=false). -/
def lookupNode_isImplicit_default : Bool := false

/-- A call of lookupNode that omits the second argument: C++ inserts the
declared default (BuildFile.h lines 162-163). -/
def lookupNodeDefaulted (d : BuildFileDelegate) (name : String) : Option Node :=
  d.lookupNode name lookupNode_isImplicit_default

/-- The number of values of the C++ type uint32_t, the type of the version
argument of configureClient (BuildFile.h line 139). -/
def UINT32_SIZE : Nat := 2 ^ 32

/-- The loader state: the four name-keyed collections exposed by the
BuildFile accessors (BuildFile.h lines 171-180, 211-221), the counter used
to give each created Task object its creation index, and the event trace. -/
structure LoadState where
  nodes : List (String × Node)
  targets : List (String × Target)
  tasks : List (String × Task)
  tools : List (String × Tool)
  taskCounter : Nat
  trace : List Event

/-- A decoded section of the build file, as produced by the excluded
decoding stage: tool, node, target and task sections in file order. -/
inductive FileSection where
  | toolSec (name : String) (attrs : List (String × String))
  | nodeSec (name : String) (attrs : List (String × String))
  | targetSec (name : String) (nodeNames : List String)
  | taskSec (name : String) (toolName : String)
      (inputs outputs : List String) (attrs : List (String × String))

/-- The decoded client declaration: expected client name, version and
additional properties.  The version is decoded as an unbounded natural; the
interface truncates it to uint32_t. -/
structure ClientDecl where
  name : String
  version : Nat
  properties : List (String × String)

/-- Whether a key is present in a name-keyed collection. -/
def hasKey {α : Type} (xs : List (String × α)) (k : String) : Bool :=
  xs.any (fun p => p.1 == k)

/-- Find the entity registered under a name, if any. -/
def lookupKey {α : Type} (xs : List (String × α)) (k : String) : Option α :=
  (xs.find? (fun p => p.1 == k)).map (fun p => p.2)

/-- Append one event to the trace. -/
def emit (st : LoadState) (e : Event) : LoadState :=
  { st with trace := st.trace ++ [e] }

/-- Record a non-fatal error through the delegate error callback:
the loader keeps parsing after recording one. -/
def recordError (st : LoadState) (msg : String) : LoadState :=
  emit st (Event.errorEvt msg)

/-- Whether an event is an error callback. -/
def isErrorEvt : Event → Bool
  | Event.errorEvt _ => true
  | _ => false

/-- The number of errors recorded so far. -/
def errorCount (st : LoadState) : Nat :=
  st.trace.countP isErrorEvt

def unknownToolMsg (name : String) : String := "unknown tool: " ++ name

def unknownNodeMsg (name : String) : String := "unknown node: " ++ name

def duplicateMsg (name : String) : String := "duplicate name: " ++ name

def attrErrorMsg (key : String) : String := "invalid attribute: " ++ key

def clientRejectedMsg : String := "client configuration rejected"

/-- Modelled from the spec: attribute configuration (BuildFile.cpp is not in
the provided sources).  Apply each key/value pair in order through the
configureAttribute call of the entity (mk builds the trace event, ok is the
virtual result); a failed call records an error but configuration of the
remaining pairs continues. -/
def applyAttrs (mk : String → String → Event) (ok : String → String → Bool) :
    List (String × String) → LoadState → LoadState
  | [], st => st
  | (k, v) :: rest, st =>
      let st1 := emit st (mk k v)
      applyAttrs mk ok rest (if ok k v then st1 else recordError st1 (attrErrorMsg k))

/-- The events produced by applyAttrs on a list of pairs: one configuration
event per pair in order, each failed pair followed by one error event. -/
def attrEventTrace (mk : String → String → Event) (ok : String → String → Bool) :
    List (String × String) → List Event
  | [] => []
  | (k, v) :: rest =>
      (mk k v :: if ok k v then [] else [Event.errorEvt (attrErrorMsg k)])
        ++ attrEventTrace mk ok rest

/-- Modelled from the spec: tool section processing (BuildFile.cpp is not in
the provided sources).  Resolve via lookupTool; if absent record an error
and skip the section; otherwise apply each attribute pair in order, then
register the Tool under its name, a duplicate name recording an error and
keeping the first registration. -/
def processToolSection (d : BuildFileDelegate) (name : String)
    (attrs : List (String × String)) (st : LoadState) : LoadState :=
  let st1 := emit st (Event.lookupToolEvt name)
  match d.lookupTool name with
  | none => recordError st1 (unknownToolMsg name)
  | some tool =>
      let st2 := applyAttrs (fun k v => Event.toolAttrEvt name k v) tool.attrOk attrs st1
      if hasKey st2.tools name then recordError st2 (duplicateMsg name)
      else { st2 with tools := st2.tools ++ [(name, tool)] }

/-- Modelled from the spec: node section processing (BuildFile.cpp is not in
the provided sources).  A node explicitly declared in its own section is
resolved via lookupNode with isImplicit = false; absence is an error;
attribute pairs are applied in order; registration keeps the first entity
on a duplicate name and records an error. -/
def processNodeSection (d : BuildFileDelegate) (name : String)
    (attrs : List (String × String)) (st : LoadState) : LoadState :=
  let st1 := emit st (Event.lookupNodeEvt name false)
  match d.lookupNode name false with
  | none => recordError st1 (unknownNodeMsg name)
  | some node =>
      let st2 := applyAttrs (fun k v => Event.nodeAttrEvt name k v) node.attrOk attrs st1
      if hasKey st2.nodes name then recordError st2 (duplicateMsg name)
      else { st2 with nodes := st2.nodes ++ [(name, node)] }

/-- Modelled from the spec: target section processing (BuildFile.cpp is not
in the provided sources).  Construct a Target from its name and ordered
node-name list, names not resolved to Node objects at this layer; register
under its name (duplicate: error, keep first, no notification); invoke
loadedTarget. -/
def processTargetSection (name : String) (nodeNames : List String)
    (st : LoadState) : LoadState :=
  if hasKey st.targets name then recordError st (duplicateMsg name)
  else
    emit { st with targets := st.targets ++ [(name, Target.mk name nodeNames)] }
      (Event.loadedTargetEvt name)

/-- Modelled from the spec: resolution of one task input or output name
(BuildFile.cpp is not in the provided sources).  If the name is already
registered it is reused; otherwise lookupNode is called with
isImplicit = true and the result is registered as an implicit Node; absence
records an error and leaves the referencing list incomplete. -/
def resolveNodeName (d : BuildFileDelegate) (name : String) (st : LoadState) :
    LoadState × Option String :=
  if hasKey st.nodes name then (st, some name)
  else
    let st1 := emit st (Event.lookupNodeEvt name true)
    match d.lookupNode name true with
    | none => (recordError st1 (unknownNodeMsg name), none)
    | some node => ({ st1 with nodes := st1.nodes ++ [(name, node)] }, some name)

/-- Modelled from the spec: resolution of an ordered list of task input or
output names, unresolved names dropped from the configured list. -/
def resolveNodeNames (d : BuildFileDelegate) :
    List String → LoadState → LoadState × List String
  | [], st => (st, [])
  | n :: rest, st =>
      let p := resolveNodeName d n st
      let q := resolveNodeNames d rest p.1
      match p.2 with
      | none => q
      | some x => (q.1, x :: q.2)

/-- Modelled from the spec: construction and configuration of one Task
(BuildFile.cpp is not in the provided sources).  Call createTask on the
Tool, apply the attribute pairs, resolve the input names then the output
names, call configureInputs then configureOutputs.  Returns the new state,
the creation index of the Task object and the two resolved name lists. -/
def taskConfigure (d : BuildFileDelegate) (name : String) (tool : Tool)
    (inputs outputs : List String) (attrs : List (String × String))
    (st : LoadState) : LoadState × Nat × List String × List String :=
  let i := st.taskCounter
  let st1 := emit { st with taskCounter := i + 1 } (Event.createTaskEvt i name)
  let st2 := applyAttrs (fun k v => Event.taskAttrEvt i k v)
    (tool.taskAttrOk name) attrs st1
  let p := resolveNodeNames d inputs st2
  let q := resolveNodeNames d outputs p.1
  (emit (emit q.1 (Event.configureInputsEvt i p.2))
    (Event.configureOutputsEvt i q.2), i, p.2, q.2)

/-- Modelled from the spec: task section processing (BuildFile.cpp is not in
the provided sources).  Look up the named Tool in the already-registered
tool set; absence records an error and skips the section.  Otherwise
construct and configure the Task through taskConfigure, register it under
its name (duplicate: error, keep first, no notification) and invoke
loadedTask. -/
def processTaskSection (d : BuildFileDelegate) (name toolName : String)
    (inputs outputs : List String) (attrs : List (String × String))
    (st : LoadState) : LoadState :=
  match lookupKey st.tools toolName with
  | none => recordError st (unknownToolMsg toolName)
  | some tool =>
      let r := taskConfigure d name tool inputs outputs attrs st
      if hasKey r.1.tasks name then recordError r.1 (duplicateMsg name)
      else
        emit { r.1 with
            tasks := r.1.tasks ++ [(name, Task.mk r.2.1 name toolName r.2.2.1 r.2.2.2)] }
          (Event.loadedTaskEvt r.2.1 name)

/-- Modelled from the spec: dispatch of one decoded section by kind. -/
def processSection (d : BuildFileDelegate) (sec : FileSection) (st : LoadState) :
    LoadState :=
  match sec with
  | FileSection.toolSec n a => processToolSection d n a st
  | FileSection.nodeSec n a => processNodeSection d n a st
  | FileSection.targetSec n ns => processTargetSection n ns st
  | FileSection.taskSec n tn i o a => processTaskSection d n tn i o a st

/-- Modelled from the spec: processing of the decoded sections in their
original file order. -/
def processSections (d : BuildFileDelegate) :
    List FileSection → LoadState → LoadState
  | [], st => st
  | s :: rest, st => processSections d rest (processSection d s st)

/-- The empty loader state, before the load operation runs. -/
def initialState : LoadState :=
  { nodes := [], targets := [], tasks := [], tools := [], taskCounter := 0, trace := [] }

/-- Modelled from the spec: step 1 of the load, the client declaration.
The version is passed through the uint32_t interface of configureClient,
hence reduced modulo 2 ^ 32. -/
def clientStep (c : ClientDecl) : LoadState :=
  emit initialState
    (Event.configureClientEvt c.name (c.version % UINT32_SIZE) c.properties)

/-- Modelled from the spec: BuildFile::load (BuildFile.cpp is not in the
provided sources).  Invoke configureClient; on rejection record the error
and stop immediately, before any entity is constructed.  Otherwise process
every section in file order; the overall result is success if and only if
no error was recorded.  The final state, with the four collections built
before any stop point, is returned regardless of success. -/
def load (d : BuildFileDelegate) (c : ClientDecl) (sections : List FileSection) :
    Bool × LoadState :=
  let st := clientStep c
  if d.configureClient c.name (c.version % UINT32_SIZE) c.properties then
    let stF := processSections d sections st
    (errorCount stF == 0, stF)
  else
    (false, recordError st clientRejectedMsg)

/-- Accessor: the set of declared nodes for the file (BuildFile.h line 212). -/
def getNodes (st : LoadState) : List (String × Node) := st.nodes

/-- Accessor: the set of declared targets for the file (BuildFile.h line 215). -/
def getTargets (st : LoadState) : List (String × Target) := st.targets

/-- Accessor: the set of declared tasks for the file (BuildFile.h line 218). -/
def getTasks (st : LoadState) : List (String × Task) := st.tasks

/-- Accessor: the set of all tools used by the file (BuildFile.h line 221). -/
def getTools (st : LoadState) : List (String × Tool) := st.tools

/-! ## Basic state lemmas -/

@[simp]
lemma emit_nodes (st : LoadState) (e : Event) : (emit st e).nodes = st.nodes := rfl

@[simp]
lemma emit_targets (st : LoadState) (e : Event) : (emit st e).targets = st.targets := rfl

@[simp]
lemma emit_tasks (st : LoadState) (e : Event) : (emit st e).tasks = st.tasks := rfl

@[simp]
lemma emit_tools (st : LoadState) (e : Event) : (emit st e).tools = st.tools := rfl

@[simp]
lemma emit_taskCounter (st : LoadState) (e : Event) :
    (emit st e).taskCounter = st.taskCounter := rfl

@[simp]
lemma emit_trace (st : LoadState) (e : Event) :
    (emit st e).trace = st.trace ++ [e] := rfl

@[simp]
lemma recordError_nodes (st : LoadState) (m : String) :
    (recordError st m).nodes = st.nodes := rfl

@[simp]
lemma recordError_targets (st : LoadState) (m : String) :
    (recordError st m).targets = st.targets := rfl

@[simp]
lemma recordError_tasks (st : LoadState) (m : String) :
    (recordError st m).tasks = st.tasks := rfl

@[simp]
lemma recordError_tools (st : LoadState) (m : String) :
    (recordError st m).tools = st.tools := rfl

@[simp]
lemma recordError_taskCounter (st : LoadState) (m : String) :
    (recordError st m).taskCounter = st.taskCounter := rfl

@[simp]
lemma recordError_trace (st : LoadState) (m : String) :
    (recordError st m).trace = st.trace ++ [Event.errorEvt m] := rfl

@[simp]
lemma errorCount_emit (st : LoadState) (e : Event) :
    errorCount (emit st e) = errorCount st + (if isErrorEvt e then 1 else 0) := by
  simp [errorCount, emit, List.countP_append, List.countP_cons]

@[simp]
lemma errorCount_recordError (st : LoadState) (m : String) :
    errorCount (recordError st m) = errorCount st + 1 := by
  simp [recordError, isErrorEvt]

/-! ## Attribute configuration: applyAttrs produces attrEventTrace -/

lemma applyAttrs_trace (mk : String → String → Event) (ok : String → String → Bool)
    (attrs : List (String × String)) (st : LoadState) :
    (applyAttrs mk ok attrs st).trace = st.trace ++ attrEventTrace mk ok attrs := by
  induction attrs generalizing st with
  | nil => simp [applyAttrs, attrEventTrace]
  | cons p rest ih =>
      obtain ⟨k, v⟩ := p
      by_cases h : ok k v = true
      · simp [applyAttrs, attrEventTrace, h, ih]
      · rw [Bool.not_eq_true] at h
        simp [applyAttrs, attrEventTrace, h, ih]

@[simp]
lemma applyAttrs_nodes (mk : String → String → Event) (ok : String → String → Bool)
    (attrs : List (String × String)) (st : LoadState) :
    (applyAttrs mk ok attrs st).nodes = st.nodes := by
  induction attrs generalizing st with
  | nil => simp [applyAttrs]
  | cons p rest ih =>
      obtain ⟨k, v⟩ := p
      by_cases h : ok k v = true <;> simp [applyAttrs, h, ih]

@[simp]
lemma applyAttrs_targets (mk : String → String → Event) (ok : String → String → Bool)
    (attrs : List (String × String)) (st : LoadState) :
    (applyAttrs mk ok attrs st).targets = st.targets := by
  induction attrs generalizing st with
  | nil => simp [applyAttrs]
  | cons p rest ih =>
      obtain ⟨k, v⟩ := p
      by_cases h : ok k v = true <;> simp [applyAttrs, h, ih]

@[simp]
lemma applyAttrs_tasks (mk : String → String → Event) (ok : String → String → Bool)
    (attrs : List (String × String)) (st : LoadState) :
    (applyAttrs mk ok attrs st).tasks = st.tasks := by
  induction attrs generalizing st with
  | nil => simp [applyAttrs]
  | cons p rest ih =>
      obtain ⟨k, v⟩ := p
      by_cases h : ok k v = true <;> simp [applyAttrs, h, ih]

@[simp]
lemma applyAttrs_tools (mk : String → String → Event) (ok : String → String → Bool)
    (attrs : List (String × String)) (st : LoadState) :
    (applyAttrs mk ok attrs st).tools = st.tools := by
  induction attrs generalizing st with
  | nil => simp [applyAttrs]
  | cons p rest ih =>
      obtain ⟨k, v⟩ := p
      by_cases h : ok k v = true <;> simp [applyAttrs, h, ih]

@[simp]
lemma applyAttrs_taskCounter (mk : String → String → Event) (ok : String → String → Bool)
    (attrs : List (String × String)) (st : LoadState) :
    (applyAttrs mk ok attrs st).taskCounter = st.taskCounter := by
  induction attrs generalizing st with
  | nil => simp [applyAttrs]
  | cons p rest ih =>
      obtain ⟨k, v⟩ := p
      by_cases h : ok k v = true <;> simp [applyAttrs, h, ih]

/-- The error events inside an attribute-configuration trace: one per failed
pair, provided the configuration events themselves are not error events. -/
lemma attrEventTrace_countP_error (mk : String → String → Event)
    (ok : String → String → Bool) (attrs : List (String × String))
    (hmk : ∀ k v, isErrorEvt (mk k v) = false) :
    (attrEventTrace mk ok attrs).countP isErrorEvt
      = attrs.countP (fun p => ! ok p.1 p.2) := by
  induction attrs with
  | nil => simp [attrEventTrace]
  | cons p rest ih =>
      obtain ⟨k, v⟩ := p
      by_cases h : ok k v = true
      · simp [attrEventTrace, h, List.countP_cons, hmk, ih]
      · rw [Bool.not_eq_true] at h
        simp [attrEventTrace, h, List.countP_cons, List.countP_append, hmk, ih,
          isErrorEvt]
        exact hmk k v

/-- Errors recorded by attribute configuration: exactly one per failed pair. -/
lemma applyAttrs_errorCount (mk : String → String → Event)
    (ok : String → String → Bool) (attrs : List (String × String)) (st : LoadState)
    (hmk : ∀ k v, isErrorEvt (mk k v) = false) :
    errorCount (applyAttrs mk ok attrs st)
      = errorCount st + attrs.countP (fun p => ! ok p.1 p.2) := by
  simp [errorCount, applyAttrs_trace, List.countP_append,
    attrEventTrace_countP_error mk ok attrs hmk]

/-! ## Resolution of task input and output names -/

/-- A name already registered in the node collection is reused: no delegate
call, no state change. -/
lemma resolveNodeName_hasKey (d : BuildFileDelegate) (name : String)
    (st : LoadState) (h : hasKey st.nodes name = true) :
    resolveNodeName d name st = (st, some name) := by
  simp [resolveNodeName, h]

/-- An unregistered name for which the delegate produces a node: exactly one
lookupNode call with isImplicit = true, and the node is registered. -/
lemma resolveNodeName_new_found (d : BuildFileDelegate) (name : String)
    (st : LoadState) (node : Node) (h : hasKey st.nodes name = false)
    (hl : d.lookupNode name true = some node) :
    resolveNodeName d name st =
      ({ st with nodes := st.nodes ++ [(name, node)],
                 trace := st.trace ++ [Event.lookupNodeEvt name true] },
       some name) := by
  simp [resolveNodeName, h, hl, emit]

/-- An unregistered name the delegate cannot resolve: one lookupNode call,
one error, node collection unchanged, name dropped. -/
lemma resolveNodeName_new_missing (d : BuildFileDelegate) (name : String)
    (st : LoadState) (h : hasKey st.nodes name = false)
    (hl : d.lookupNode name true = none) :
    resolveNodeName d name st =
      ({ st with trace := st.trace ++ [Event.lookupNodeEvt name true,
          Event.errorEvt (unknownNodeMsg name)] }, none) := by
  simp [resolveNodeName, h, hl, recordError, emit]

@[simp]
lemma resolveNodeName_targets (d : BuildFileDelegate) (name : String)
    (st : LoadState) : (resolveNodeName d name st).1.targets = st.targets := by
  by_cases h : hasKey st.nodes name = true
  · simp [resolveNodeName, h]
  · rw [Bool.not_eq_true] at h
    cases hl : d.lookupNode name true <;> simp [resolveNodeName, h, hl]

@[simp]
lemma resolveNodeName_tasks (d : BuildFileDelegate) (name : String)
    (st : LoadState) : (resolveNodeName d name st).1.tasks = st.tasks := by
  by_cases h : hasKey st.nodes name = true
  · simp [resolveNodeName, h]
  · rw [Bool.not_eq_true] at h
    cases hl : d.lookupNode name true <;> simp [resolveNodeName, h, hl]

@[simp]
lemma resolveNodeName_tools (d : BuildFileDelegate) (name : String)
    (st : LoadState) : (resolveNodeName d name st).1.tools = st.tools := by
  by_cases h : hasKey st.nodes name = true
  · simp [resolveNodeName, h]
  · rw [Bool.not_eq_true] at h
    cases hl : d.lookupNode name true <;> simp [resolveNodeName, h, hl]

@[simp]
lemma resolveNodeName_taskCounter (d : BuildFileDelegate) (name : String)
    (st : LoadState) : (resolveNodeName d name st).1.taskCounter = st.taskCounter := by
  by_cases h : hasKey st.nodes name = true
  · simp [resolveNodeName, h]
  · rw [Bool.not_eq_true] at h
    cases hl : d.lookupNode name true <;> simp [resolveNodeName, h, hl]

@[simp]
lemma resolveNodeNames_targets (d : BuildFileDelegate) (names : List String)
    (st : LoadState) : (resolveNodeNames d names st).1.targets = st.targets := by
  induction names generalizing st with
  | nil => simp [resolveNodeNames]
  | cons n rest ih =>
      cases hp : (resolveNodeName d n st).2 <;>
        simp [resolveNodeNames, hp, ih, resolveNodeName_targets d n st]

@[simp]
lemma resolveNodeNames_tasks (d : BuildFileDelegate) (names : List String)
    (st : LoadState) : (resolveNodeNames d names st).1.tasks = st.tasks := by
  induction names generalizing st with
  | nil => simp [resolveNodeNames]
  | cons n rest ih =>
      cases hp : (resolveNodeName d n st).2 <;>
        simp [resolveNodeNames, hp, ih, resolveNodeName_tasks d n st]

@[simp]
lemma resolveNodeNames_tools (d : BuildFileDelegate) (names : List String)
    (st : LoadState) : (resolveNodeNames d names st).1.tools = st.tools := by
  induction names generalizing st with
  | nil => simp [resolveNodeNames]
  | cons n rest ih =>
      cases hp : (resolveNodeName d n st).2 <;>
        simp [resolveNodeNames, hp, ih, resolveNodeName_tools d n st]

@[simp]
lemma resolveNodeNames_taskCounter (d : BuildFileDelegate) (names : List String)
    (st : LoadState) : (resolveNodeNames d names st).1.taskCounter = st.taskCounter := by
  induction names generalizing st with
  | nil => simp [resolveNodeNames]
  | cons n rest ih =>
      cases hp : (resolveNodeName d n st).2 <;>
        simp [resolveNodeNames, hp, ih, resolveNodeName_taskCounter d n st]

/-! ## Events directed at one Task object -/

/-- Whether an event is a call made on (or about) the Task object with
creation index i. -/
def belongsTo (i : Nat) : Event → Bool
  | Event.createTaskEvt j _ => j == i
  | Event.taskAttrEvt j _ _ => j == i
  | Event.configureInputsEvt j _ => j == i
  | Event.configureOutputsEvt j _ => j == i
  | Event.loadedTaskEvt j _ => j == i
  | _ => false

/-- The subtrace of events directed at the Task object with creation
index i. -/
def taskEvents (i : Nat) (l : List Event) : List Event :=
  l.filter (belongsTo i)

/-- Whether an event is the configureClient callback. -/
def isClientEvt : Event → Bool
  | Event.configureClientEvt .. => true
  | _ => false

/-- A plain event: neither directed at a Task object nor the configureClient
callback (error, lookup, tool and node attribute and loadedTarget events). -/
def PlainEvt : Event → Bool
  | Event.errorEvt _ => true
  | Event.lookupToolEvt _ => true
  | Event.lookupNodeEvt _ _ => true
  | Event.toolAttrEvt .. => true
  | Event.nodeAttrEvt .. => true
  | Event.loadedTargetEvt _ => true
  | _ => false

/-- A list of plain events. -/
def PlainEvents (l : List Event) : Prop :=
  ∀ e ∈ l, PlainEvt e = true

lemma plainEvt_not_task (e : Event) (h : PlainEvt e = true) (i : Nat) :
    belongsTo i e = false := by
  cases e <;> simp_all [PlainEvt, belongsTo]

lemma plainEvt_not_client (e : Event) (h : PlainEvt e = true) :
    isClientEvt e = false := by
  cases e <;> simp_all [PlainEvt, isClientEvt]

lemma taskEvents_append (i : Nat) (l₁ l₂ : List Event) :
    taskEvents i (l₁ ++ l₂) = taskEvents i l₁ ++ taskEvents i l₂ := by
  simp [taskEvents, List.filter_append]

lemma taskEvents_of_plain (i : Nat) (l : List Event) (h : PlainEvents l) :
    taskEvents i l = [] := by
  simp only [taskEvents, List.filter_eq_nil_iff]
  intro e he
  simp [plainEvt_not_task e (h e he) i]

lemma plainEvents_append (l₁ l₂ : List Event) (h₁ : PlainEvents l₁)
    (h₂ : PlainEvents l₂) : PlainEvents (l₁ ++ l₂) := by
  intro e he
  rcases List.mem_append.mp he with h | h
  · exact h₁ e h
  · exact h₂ e h

lemma plainEvents_no_client (l : List Event) (h : PlainEvents l)
    (name : String) (v : Nat) (props : List (String × String)) :
    Event.configureClientEvt name v props ∉ l := by
  intro hmem
  have := plainEvt_not_client _ (h _ hmem)
  simp [isClientEvt] at this

/-- The trace growth of resolving one name consists of plain events only. -/
lemma resolveNodeName_trace (d : BuildFileDelegate) (name : String)
    (st : LoadState) :
    ∃ Δ, (resolveNodeName d name st).1.trace = st.trace ++ Δ ∧ PlainEvents Δ := by
  by_cases h : hasKey st.nodes name = true
  · exact ⟨[], by simp [resolveNodeName, h], by intro e he; simp at he⟩
  · rw [Bool.not_eq_true] at h
    cases hl : d.lookupNode name true with
    | none =>
        refine ⟨[Event.lookupNodeEvt name true, Event.errorEvt (unknownNodeMsg name)],
          ?_, ?_⟩
        · simp [resolveNodeName, h, hl]
        · intro e he
          simp only [List.mem_cons, List.mem_singleton, List.not_mem_nil,
            or_false] at he
          rcases he with rfl | rfl <;> simp [PlainEvt]
    | some node =>
        refine ⟨[Event.lookupNodeEvt name true], ?_, ?_⟩
        · simp [resolveNodeName, h, hl]
        · intro e he
          rcases List.mem_singleton.mp he with rfl
          simp [PlainEvt]

/-- The trace growth of resolving a list of names consists of plain events
only. -/
lemma resolveNodeNames_trace (d : BuildFileDelegate) (names : List String)
    (st : LoadState) :
    ∃ Δ, (resolveNodeNames d names st).1.trace = st.trace ++ Δ ∧ PlainEvents Δ := by
  induction names generalizing st with
  | nil => exact ⟨[], by simp [resolveNodeNames], by intro e he; simp at he⟩
  | cons n rest ih =>
      obtain ⟨Δ₁, h₁, n₁⟩ := resolveNodeName_trace d n st
      obtain ⟨Δ₂, h₂, n₂⟩ := ih (resolveNodeName d n st).1
      refine ⟨Δ₁ ++ Δ₂, ?_, plainEvents_append Δ₁ Δ₂ n₁ n₂⟩
      cases hp : (resolveNodeName d n st).2 <;>
        simp [resolveNodeNames, hp, h₂, h₁, List.append_assoc]

/-- Every event of an attribute-configuration trace is either a
configuration event or an error event. -/
lemma attrEventTrace_mem (mk : String → String → Event)
    (ok : String → String → Bool) (attrs : List (String × String)) (e : Event)
    (he : e ∈ attrEventTrace mk ok attrs) :
    (∃ k v, e = mk k v) ∨ ∃ m, e = Event.errorEvt m := by
  induction attrs with
  | nil => simp [attrEventTrace] at he
  | cons p rest ih =>
      obtain ⟨k, v⟩ := p
      by_cases h : ok k v = true
      · simp only [attrEventTrace, h, if_pos, List.nil_append, List.cons_append,
          List.mem_cons] at he
        rcases he with rfl | he
        · exact Or.inl ⟨k, v, rfl⟩
        · exact ih he
      · rw [Bool.not_eq_true] at h
        simp only [attrEventTrace, h, Bool.false_eq_true, if_false,
          List.cons_append, List.singleton_append, List.mem_cons] at he
        rcases he with rfl | rfl | he
        · exact Or.inl ⟨k, v, rfl⟩
        · exact Or.inr ⟨attrErrorMsg k, rfl⟩
        · exact ih he

/-- An attribute-configuration trace whose configuration events are plain is
a plain trace. -/
lemma attrEventTrace_plain (mk : String → String → Event)
    (ok : String → String → Bool) (attrs : List (String × String))
    (hmk : ∀ k v, PlainEvt (mk k v) = true) :
    PlainEvents (attrEventTrace mk ok attrs) := by
  intro e he
  rcases attrEventTrace_mem mk ok attrs e he with ⟨k, v, rfl⟩ | ⟨m, rfl⟩
  · exact hmk k v
  · simp [PlainEvt]

/-- The events directed at Task object i inside the attribute trace of that
very object: exactly one configuration event per pair, in order. -/
lemma attrEventTrace_taskAttr_self (i : Nat) (ok : String → String → Bool)
    (attrs : List (String × String)) :
    (attrEventTrace (fun k v => Event.taskAttrEvt i k v) ok attrs).filter
        (belongsTo i)
      = attrs.map (fun p => Event.taskAttrEvt i p.1 p.2) := by
  induction attrs with
  | nil => simp [attrEventTrace]
  | cons p rest ih =>
      obtain ⟨k, v⟩ := p
      by_cases h : ok k v = true
      · simp [attrEventTrace, h, List.filter_append, List.filter_cons,
          belongsTo, ih]
      · rw [Bool.not_eq_true] at h
        simp [attrEventTrace, h, List.filter_append, List.filter_cons,
          belongsTo, ih]

/-- The attribute trace of Task object i contains no events directed at any
other Task object. -/
lemma attrEventTrace_taskAttr_ne (i j : Nat) (ok : String → String → Bool)
    (attrs : List (String × String)) (hne : ¬ j = i) :
    (attrEventTrace (fun k v => Event.taskAttrEvt i k v) ok attrs).filter
        (belongsTo j) = [] := by
  have hij : (i == j) = false := by
    rw [beq_eq_false_iff_ne]
    intro hc
    exact hne hc.symm
  induction attrs with
  | nil => simp [attrEventTrace]
  | cons p rest ih =>
      obtain ⟨k, v⟩ := p
      by_cases h : ok k v = true
      · simp [attrEventTrace, h, List.filter_append, List.filter_cons,
          belongsTo, hij, ih]
      · rw [Bool.not_eq_true] at h
        simp [attrEventTrace, h, List.filter_append, List.filter_cons,
          belongsTo, hij, ih]

/-! ## Name-keyed collections -/

/-- The keys of a name-keyed collection are pairwise distinct. -/
def distinctKeys {α : Type} (xs : List (String × α)) : Prop :=
  (xs.map Prod.fst).Nodup

lemma hasKey_iff_mem {α : Type} (xs : List (String × α)) (k : String) :
    hasKey xs k = true ↔ k ∈ xs.map Prod.fst := by
  simp only [hasKey, List.any_eq_true, List.mem_map, beq_iff_eq]

/-- Registering a fresh key keeps the keys pairwise distinct. -/
lemma distinctKeys_register {α : Type} (xs : List (String × α)) (k : String)
    (v : α) (h : hasKey xs k = false) (hd : distinctKeys xs) :
    distinctKeys (xs ++ [(k, v)]) := by
  have hk : k ∉ xs.map Prod.fst := by
    intro hmem
    rw [← hasKey_iff_mem] at hmem
    rw [h] at hmem
    cases hmem
  simp only [distinctKeys, List.map_append, List.map_cons, List.map_nil]
  rw [List.nodup_append]
  refine ⟨hd, List.nodup_singleton k, ?_⟩
  intro a ha hb
  simp only [List.mem_singleton] at hb
  subst hb
  exact hk ha

/-- A fresh registration is found under its key. -/
lemma lookupKey_register {α : Type} (xs : List (String × α)) (k : String)
    (v : α) (h : hasKey xs k = false) :
    lookupKey (xs ++ [(k, v)]) k = some v := by
  induction xs with
  | nil => simp [lookupKey, List.find?]
  | cons p rest ih =>
      simp only [hasKey, List.any_cons, Bool.or_eq_false_iff] at h
      obtain ⟨h₁, h₂⟩ := h
      simp only [lookupKey, List.cons_append, List.find?]
      rw [h₁]
      exact ih h₂

/-- Resolving one name keeps the node keys pairwise distinct. -/
lemma resolveNodeName_nodes_distinct (d : BuildFileDelegate) (n : String)
    (st : LoadState) (hd : distinctKeys st.nodes) :
    distinctKeys (resolveNodeName d n st).1.nodes := by
  by_cases h : hasKey st.nodes n = true
  · simpa [resolveNodeName, h] using hd
  · rw [Bool.not_eq_true] at h
    cases hl : d.lookupNode n true with
    | none => simpa [resolveNodeName, h, hl] using hd
    | some node =>
        simp only [resolveNodeName, h, Bool.false_eq_true, if_false, hl,
          emit_nodes]
        exact distinctKeys_register st.nodes n node h hd

/-- Resolving a list of names keeps the node keys pairwise distinct. -/
lemma resolveNodeNames_nodes_distinct (d : BuildFileDelegate)
    (names : List String) (st : LoadState) (hd : distinctKeys st.nodes) :
    distinctKeys (resolveNodeNames d names st).1.nodes := by
  induction names generalizing st with
  | nil => simpa [resolveNodeNames] using hd
  | cons n rest ih =>
      have h1 := resolveNodeName_nodes_distinct d n st hd
      cases hp : (resolveNodeName d n st).2 <;>
        simpa [resolveNodeNames, hp] using ih (resolveNodeName d n st).1 h1

/-! ## The loader invariant -/

/-- The lifecycle of calls made on one Task object: nothing at all, or a
single creation followed by its attribute configuration events, then exactly
one configureInputs call, then exactly one configureOutputs call, then at
most one loadedTask notification. -/
def TaskPattern (i : Nat) (l : List Event) : Prop :=
  l = [] ∨ ∃ (name : String) (attrs : List (String × String))
      (ins outs : List String) (tail : List Event),
    l = Event.createTaskEvt i name ::
      ((attrs.map fun p => Event.taskAttrEvt i p.1 p.2)
        ++ [Event.configureInputsEvt i ins, Event.configureOutputsEvt i outs]
        ++ tail)
    ∧ (tail = [] ∨ tail = [Event.loadedTaskEvt i name])

/-- A trace without configureClient events. -/
def ClientFree (l : List Event) : Prop :=
  ∀ e ∈ l, isClientEvt e = false

lemma clientFree_append (l₁ l₂ : List Event) (h₁ : ClientFree l₁)
    (h₂ : ClientFree l₂) : ClientFree (l₁ ++ l₂) := by
  intro e he
  rcases List.mem_append.mp he with h | h
  · exact h₁ e h
  · exact h₂ e h

lemma clientFree_of_plain (l : List Event) (h : PlainEvents l) : ClientFree l := by
  intro e he
  exact plainEvt_not_client e (h e he)

lemma clientFree_not_mem (l : List Event) (h : ClientFree l) (name : String)
    (v : Nat) (props : List (String × String)) :
    Event.configureClientEvt name v props ∉ l := by
  intro hmem
  have := h _ hmem
  simp [isClientEvt] at this

/-- The invariant maintained by the loader across section processing: every
Task object sees the call lifecycle TaskPattern, Task objects not yet
created have no events, every configureClient event carries a uint32_t
version, and the keys of the four collections are pairwise distinct. -/
structure Inv (st : LoadState) : Prop where
  pattern : ∀ i, TaskPattern i (taskEvents i st.trace)
  fresh : ∀ i, st.taskCounter ≤ i → taskEvents i st.trace = []
  clientBound : ∀ name v props,
    Event.configureClientEvt name v props ∈ st.trace → v < UINT32_SIZE
  nodesD : distinctKeys st.nodes
  targetsD : distinctKeys st.targets
  tasksD : distinctKeys st.tasks
  toolsD : distinctKeys st.tools

/-- Extending the trace by plain events and keeping the counter preserves
the trace parts of the invariant. -/
lemma inv_of_plain_extension (st st2 : LoadState) (h : Inv st) (Δ : List Event)
    (htr : st2.trace = st.trace ++ Δ) (hp : PlainEvents Δ)
    (hc : st2.taskCounter = st.taskCounter)
    (hn : distinctKeys st2.nodes) (hg : distinctKeys st2.targets)
    (hk : distinctKeys st2.tasks) (hl : distinctKeys st2.tools) : Inv st2 := by
  refine ⟨?_, ?_, ?_, hn, hg, hk, hl⟩
  · intro i
    rw [htr, taskEvents_append, taskEvents_of_plain i Δ hp, List.append_nil]
    exact h.pattern i
  · intro i hi
    rw [htr, taskEvents_append, taskEvents_of_plain i Δ hp, List.append_nil]
    exact h.fresh i (by rw [hc] at hi; exact hi)
  · intro name v props hmem
    rw [htr] at hmem
    rcases List.mem_append.mp hmem with hm | hm
    · exact h.clientBound name v props hm
    · exact absurd hm
        (clientFree_not_mem Δ (clientFree_of_plain Δ hp) name v props)

lemma plainEvents_nil : PlainEvents [] := by
  intro e he
  simp at he

lemma plainEvents_single (e₁ : Event) (h₁ : PlainEvt e₁ = true) :
    PlainEvents [e₁] := by
  intro e he
  rcases List.mem_singleton.mp he with rfl
  exact h₁

lemma plainEvents_pair (e₁ e₂ : Event) (h₁ : PlainEvt e₁ = true)
    (h₂ : PlainEvt e₂ = true) : PlainEvents [e₁, e₂] := by
  intro e he
  simp only [List.mem_cons, List.mem_singleton, List.not_mem_nil, or_false] at he
  rcases he with rfl | rfl <;> assumption

/-- Tool section processing preserves the loader invariant. -/
lemma inv_processToolSection (d : BuildFileDelegate) (name : String)
    (attrs : List (String × String)) (st : LoadState) (h : Inv st) :
    Inv (processToolSection d name attrs st) := by
  cases hl : d.lookupTool name with
  | none =>
      refine inv_of_plain_extension st _ h
        [Event.lookupToolEvt name, Event.errorEvt (unknownToolMsg name)]
        ?_ ?_ ?_ ?_ ?_ ?_ ?_
      · simp [processToolSection, hl]
      · exact plainEvents_pair _ _ (by simp [PlainEvt]) (by simp [PlainEvt])
      · simp [processToolSection, hl]
      · simpa [processToolSection, hl] using h.nodesD
      · simpa [processToolSection, hl] using h.targetsD
      · simpa [processToolSection, hl] using h.tasksD
      · simpa [processToolSection, hl] using h.toolsD
  | some tool =>
      have hplain : PlainEvents
          (Event.lookupToolEvt name ::
            attrEventTrace (fun k v => Event.toolAttrEvt name k v)
              tool.attrOk attrs) := by
        intro e he
        rcases List.mem_cons.mp he with rfl | he
        · simp [PlainEvt]
        · exact attrEventTrace_plain _ _ _ (fun k v => by simp [PlainEvt]) e he
      by_cases hdup : hasKey st.tools name = true
      · refine inv_of_plain_extension st _ h
          (Event.lookupToolEvt name ::
            attrEventTrace (fun k v => Event.toolAttrEvt name k v)
              tool.attrOk attrs ++ [Event.errorEvt (duplicateMsg name)])
          ?_ ?_ ?_ ?_ ?_ ?_ ?_
        · simp [processToolSection, hl, hdup, applyAttrs_trace, emit]
        · intro e he
          rcases List.mem_cons.mp he with rfl | he
          · simp [PlainEvt]
          · rcases List.mem_append.mp he with he | he
            · exact attrEventTrace_plain _ _ _ (fun k v => by simp [PlainEvt]) e he
            · rcases List.mem_singleton.mp he with rfl
              simp [PlainEvt]
        · simp [processToolSection, hl, hdup]
        · simpa [processToolSection, hl, hdup] using h.nodesD
        · simpa [processToolSection, hl, hdup] using h.targetsD
        · simpa [processToolSection, hl, hdup] using h.tasksD
        · simpa [processToolSection, hl, hdup] using h.toolsD
      · rw [Bool.not_eq_true] at hdup
        refine inv_of_plain_extension st _ h
          (Event.lookupToolEvt name ::
            attrEventTrace (fun k v => Event.toolAttrEvt name k v)
              tool.attrOk attrs)
          ?_ ?_ ?_ ?_ ?_ ?_ ?_
        · simp [processToolSection, hl, hdup, applyAttrs_trace, emit]
        · exact hplain
        · simp [processToolSection, hl, hdup]
        · simpa [processToolSection, hl, hdup] using h.nodesD
        · simpa [processToolSection, hl, hdup] using h.targetsD
        · simpa [processToolSection, hl, hdup] using h.tasksD
        · simp only [processToolSection, hl, hdup, Bool.false_eq_true, if_false,
            applyAttrs_tools, emit_tools]
          exact distinctKeys_register st.tools name tool hdup h.toolsD

/-- Node section processing preserves the loader invariant. -/
lemma inv_processNodeSection (d : BuildFileDelegate) (name : String)
    (attrs : List (String × String)) (st : LoadState) (h : Inv st) :
    Inv (processNodeSection d name attrs st) := by
  cases hl : d.lookupNode name false with
  | none =>
      refine inv_of_plain_extension st _ h
        [Event.lookupNodeEvt name false, Event.errorEvt (unknownNodeMsg name)]
        ?_ ?_ ?_ ?_ ?_ ?_ ?_
      · simp [processNodeSection, hl]
      · exact plainEvents_pair _ _ (by simp [PlainEvt]) (by simp [PlainEvt])
      · simp [processNodeSection, hl]
      · simpa [processNodeSection, hl] using h.nodesD
      · simpa [processNodeSection, hl] using h.targetsD
      · simpa [processNodeSection, hl] using h.tasksD
      · simpa [processNodeSection, hl] using h.toolsD
  | some node =>
      by_cases hdup : hasKey st.nodes name = true
      · refine inv_of_plain_extension st _ h
          (Event.lookupNodeEvt name false ::
            attrEventTrace (fun k v => Event.nodeAttrEvt name k v)
              node.attrOk attrs ++ [Event.errorEvt (duplicateMsg name)])
          ?_ ?_ ?_ ?_ ?_ ?_ ?_
        · simp [processNodeSection, hl, hdup, applyAttrs_trace, emit]
        · intro e he
          rcases List.mem_cons.mp he with rfl | he
          · simp [PlainEvt]
          · rcases List.mem_append.mp he with he | he
            · exact attrEventTrace_plain _ _ _ (fun k v => by simp [PlainEvt]) e he
            · rcases List.mem_singleton.mp he with rfl
              simp [PlainEvt]
        · simp [processNodeSection, hl, hdup]
        · simpa [processNodeSection, hl, hdup] using h.nodesD
        · simpa [processNodeSection, hl, hdup] using h.targetsD
        · simpa [processNodeSection, hl, hdup] using h.tasksD
        · simpa [processNodeSection, hl, hdup] using h.toolsD
      · rw [Bool.not_eq_true] at hdup
        refine inv_of_plain_extension st _ h
          (Event.lookupNodeEvt name false ::
            attrEventTrace (fun k v => Event.nodeAttrEvt name k v)
              node.attrOk attrs)
          ?_ ?_ ?_ ?_ ?_ ?_ ?_
        · simp [processNodeSection, hl, hdup, applyAttrs_trace, emit]
        · intro e he
          rcases List.mem_cons.mp he with rfl | he
          · simp [PlainEvt]
          · exact attrEventTrace_plain _ _ _ (fun k v => by simp [PlainEvt]) e he
        · simp [processNodeSection, hl, hdup]
        · simp only [processNodeSection, hl, hdup, Bool.false_eq_true, if_false,
            applyAttrs_nodes, emit_nodes]
          exact distinctKeys_register st.nodes name node hdup h.nodesD
        · simpa [processNodeSection, hl, hdup] using h.targetsD
        · simpa [processNodeSection, hl, hdup] using h.tasksD
        · simpa [processNodeSection, hl, hdup] using h.toolsD

/-- Target section processing preserves the loader invariant. -/
lemma inv_processTargetSection (name : String) (nodeNames : List String)
    (st : LoadState) (h : Inv st) : Inv (processTargetSection name nodeNames st) := by
  by_cases hdup : hasKey st.targets name = true
  · refine inv_of_plain_extension st _ h [Event.errorEvt (duplicateMsg name)]
      ?_ ?_ ?_ ?_ ?_ ?_ ?_
    · simp [processTargetSection, hdup]
    · exact plainEvents_single _ (by simp [PlainEvt])
    · simp [processTargetSection, hdup]
    · simpa [processTargetSection, hdup] using h.nodesD
    · simpa [processTargetSection, hdup] using h.targetsD
    · simpa [processTargetSection, hdup] using h.tasksD
    · simpa [processTargetSection, hdup] using h.toolsD
  · rw [Bool.not_eq_true] at hdup
    refine inv_of_plain_extension st _ h [Event.loadedTargetEvt name]
      ?_ ?_ ?_ ?_ ?_ ?_ ?_
    · simp [processTargetSection, hdup]
    · exact plainEvents_single _ (by simp [PlainEvt])
    · simp [processTargetSection, hdup]
    · simpa [processTargetSection, hdup] using h.nodesD
    · simp only [processTargetSection, hdup, Bool.false_eq_true, if_false,
        emit_targets]
      exact distinctKeys_register st.targets name (Target.mk name nodeNames)
        hdup h.targetsD
    · simpa [processTargetSection, hdup] using h.tasksD
    · simpa [processTargetSection, hdup] using h.toolsD

@[simp]
lemma taskConfigure_idx (d : BuildFileDelegate) (name : String) (tool : Tool)
    (inputs outputs : List String) (attrs : List (String × String))
    (st : LoadState) :
    (taskConfigure d name tool inputs outputs attrs st).2.1 = st.taskCounter := rfl

@[simp]
lemma taskConfigure_taskCounter (d : BuildFileDelegate) (name : String)
    (tool : Tool) (inputs outputs : List String)
    (attrs : List (String × String)) (st : LoadState) :
    (taskConfigure d name tool inputs outputs attrs st).1.taskCounter
      = st.taskCounter + 1 := by
  simp [taskConfigure]

@[simp]
lemma taskConfigure_tasks (d : BuildFileDelegate) (name : String) (tool : Tool)
    (inputs outputs : List String) (attrs : List (String × String))
    (st : LoadState) :
    (taskConfigure d name tool inputs outputs attrs st).1.tasks = st.tasks := by
  simp [taskConfigure]

@[simp]
lemma taskConfigure_targets (d : BuildFileDelegate) (name : String) (tool : Tool)
    (inputs outputs : List String) (attrs : List (String × String))
    (st : LoadState) :
    (taskConfigure d name tool inputs outputs attrs st).1.targets = st.targets := by
  simp [taskConfigure]

@[simp]
lemma taskConfigure_tools (d : BuildFileDelegate) (name : String) (tool : Tool)
    (inputs outputs : List String) (attrs : List (String × String))
    (st : LoadState) :
    (taskConfigure d name tool inputs outputs attrs st).1.tools = st.tools := by
  simp [taskConfigure]

lemma taskConfigure_nodes_distinct (d : BuildFileDelegate) (name : String)
    (tool : Tool) (inputs outputs : List String)
    (attrs : List (String × String)) (st : LoadState)
    (hd : distinctKeys st.nodes) :
    distinctKeys (taskConfigure d name tool inputs outputs attrs st).1.nodes := by
  simp only [taskConfigure, emit_nodes]
  apply resolveNodeNames_nodes_distinct
  apply resolveNodeNames_nodes_distinct
  simpa using hd

/-- The trace produced by constructing and configuring one Task: the
creation event, the attribute trace, plain node-resolution events, then the
configureInputs and configureOutputs calls. -/
lemma taskConfigure_trace (d : BuildFileDelegate) (name : String) (tool : Tool)
    (inputs outputs : List String) (attrs : List (String × String))
    (st : LoadState) :
    ∃ Δ, (taskConfigure d name tool inputs outputs attrs st).1.trace
        = st.trace
          ++ (Event.createTaskEvt st.taskCounter name ::
              (attrEventTrace (fun k v => Event.taskAttrEvt st.taskCounter k v)
                  (tool.taskAttrOk name) attrs
                ++ Δ
                ++ [Event.configureInputsEvt st.taskCounter
                      (taskConfigure d name tool inputs outputs attrs st).2.2.1,
                    Event.configureOutputsEvt st.taskCounter
                      (taskConfigure d name tool inputs outputs attrs st).2.2.2]))
      ∧ PlainEvents Δ := by
  obtain ⟨Δ₁, h₁, p₁⟩ := resolveNodeNames_trace d inputs
    (applyAttrs (fun k v => Event.taskAttrEvt st.taskCounter k v)
      (tool.taskAttrOk name) attrs
      (emit { st with taskCounter := st.taskCounter + 1 }
        (Event.createTaskEvt st.taskCounter name)))
  obtain ⟨Δ₂, h₂, p₂⟩ := resolveNodeNames_trace d outputs
    (resolveNodeNames d inputs
      (applyAttrs (fun k v => Event.taskAttrEvt st.taskCounter k v)
        (tool.taskAttrOk name) attrs
        (emit { st with taskCounter := st.taskCounter + 1 }
          (Event.createTaskEvt st.taskCounter name)))).1
  refine ⟨Δ₁ ++ Δ₂, ?_, plainEvents_append Δ₁ Δ₂ p₁ p₂⟩
  simp [taskConfigure, h₂, h₁, applyAttrs_trace, List.append_assoc]

/-- Appending the call segment of one freshly created Task object preserves
the trace parts of the invariant. -/
lemma inv_of_task_extension (st st2 : LoadState) (h : Inv st) (name : String)
    (ok : String → String → Bool) (attrs : List (String × String))
    (Δ tail : List Event) (ins outs : List String) (m : String)
    (htr : st2.trace = st.trace
      ++ (Event.createTaskEvt st.taskCounter name ::
          ((attrEventTrace (fun k v => Event.taskAttrEvt st.taskCounter k v)
              ok attrs
            ++ Δ
            ++ [Event.configureInputsEvt st.taskCounter ins,
                Event.configureOutputsEvt st.taskCounter outs])
            ++ tail)))
    (hΔ : PlainEvents Δ)
    (htail : tail = [Event.errorEvt m]
      ∨ tail = [Event.loadedTaskEvt st.taskCounter name])
    (hcnt : st2.taskCounter = st.taskCounter + 1)
    (hn : distinctKeys st2.nodes) (hg : distinctKeys st2.targets)
    (hk : distinctKeys st2.tasks) (hl : distinctKeys st2.tools) : Inv st2 := by
  have hfilterΔ : ∀ j, Δ.filter (belongsTo j) = [] := by
    intro j
    have := taskEvents_of_plain j Δ hΔ
    simpa [taskEvents] using this
  have hsegne : ∀ j, ¬ j = st.taskCounter →
      taskEvents j (Event.createTaskEvt st.taskCounter name ::
        ((attrEventTrace (fun k v => Event.taskAttrEvt st.taskCounter k v)
            ok attrs
          ++ Δ
          ++ [Event.configureInputsEvt st.taskCounter ins,
              Event.configureOutputsEvt st.taskCounter outs])
          ++ tail)) = [] := by
    intro j hj
    have hij : (st.taskCounter == j) = false := by
      rw [beq_eq_false_iff_ne]
      intro hc
      exact hj hc.symm
    rcases htail with rfl | rfl <;>
      simp [taskEvents, List.filter_cons, List.filter_append, belongsTo, hij,
        attrEventTrace_taskAttr_ne st.taskCounter j ok attrs hj, hfilterΔ]
  refine ⟨?_, ?_, ?_, hn, hg, hk, hl⟩
  · intro j
    by_cases hj : j = st.taskCounter
    · subst hj
      rw [htr, taskEvents_append, h.fresh st.taskCounter le_rfl, List.nil_append]
      rcases htail with rfl | rfl
      · refine Or.inr ⟨name, attrs, ins, outs, [], ?_, Or.inl rfl⟩
        simp [taskEvents, List.filter_cons, List.filter_append, belongsTo,
          attrEventTrace_taskAttr_self, hfilterΔ]
      · refine Or.inr ⟨name, attrs, ins, outs,
          [Event.loadedTaskEvt st.taskCounter name], ?_, Or.inr rfl⟩
        simp [taskEvents, List.filter_cons, List.filter_append, belongsTo,
          attrEventTrace_taskAttr_self, hfilterΔ]
    · rw [htr, taskEvents_append, hsegne j hj, List.append_nil]
      exact h.pattern j
  · intro j hjc
    rw [hcnt] at hjc
    have hj : ¬ j = st.taskCounter := by omega
    rw [htr, taskEvents_append, hsegne j hj, List.append_nil]
    exact h.fresh j (by omega)
  · intro n v pr hmem
    rw [htr] at hmem
    rcases List.mem_append.mp hmem with hm | hm
    · exact h.clientBound n v pr hm
    · exfalso
      rcases List.mem_cons.mp hm with he | hm
      · exact Event.noConfusion he
      rcases List.mem_append.mp hm with hm | hm
      · rcases List.mem_append.mp hm with hm | hm
        · rcases List.mem_append.mp hm with hm | hm
          · rcases attrEventTrace_mem _ _ _ _ hm with ⟨k2, v2, he⟩ | ⟨m2, he⟩ <;>
              exact Event.noConfusion he
          · exact clientFree_not_mem Δ (clientFree_of_plain Δ hΔ) n v pr hm
        · simp at hm
      · rcases htail with rfl | rfl <;> simp at hm

/-- Task section processing preserves the loader invariant. -/
lemma inv_processTaskSection (d : BuildFileDelegate) (name toolName : String)
    (inputs outputs : List String) (attrs : List (String × String))
    (st : LoadState) (h : Inv st) :
    Inv (processTaskSection d name toolName inputs outputs attrs st) := by
  cases hl : lookupKey st.tools toolName with
  | none =>
      refine inv_of_plain_extension st _ h [Event.errorEvt (unknownToolMsg toolName)]
        ?_ ?_ ?_ ?_ ?_ ?_ ?_
      · simp [processTaskSection, hl]
      · exact plainEvents_single _ (by simp [PlainEvt])
      · simp [processTaskSection, hl]
      · simpa [processTaskSection, hl] using h.nodesD
      · simpa [processTaskSection, hl] using h.targetsD
      · simpa [processTaskSection, hl] using h.tasksD
      · simpa [processTaskSection, hl] using h.toolsD
  | some tool =>
      obtain ⟨Δ, htr, hΔ⟩ := taskConfigure_trace d name tool inputs outputs attrs st
      have hnodesD := taskConfigure_nodes_distinct d name tool inputs outputs
        attrs st h.nodesD
      by_cases hdup :
          hasKey (taskConfigure d name tool inputs outputs attrs st).1.tasks name
            = true
      · have hdup2 : hasKey st.tasks name = true := by simpa using hdup
        have heq : processTaskSection d name toolName inputs outputs attrs st
            = recordError (taskConfigure d name tool inputs outputs attrs st).1
                (duplicateMsg name) := by
          simp [processTaskSection, hl, hdup2]
        rw [heq]
        refine inv_of_task_extension st _ h name (tool.taskAttrOk name) attrs Δ
          [Event.errorEvt (duplicateMsg name)]
          (taskConfigure d name tool inputs outputs attrs st).2.2.1
          (taskConfigure d name tool inputs outputs attrs st).2.2.2
          (duplicateMsg name) ?_ hΔ (Or.inl rfl) ?_ ?_ ?_ ?_ ?_
        · simp [htr, List.append_assoc]
        · simp
        · simpa using hnodesD
        · simpa using h.targetsD
        · simpa using h.tasksD
        · simpa using h.toolsD
      · rw [Bool.not_eq_true] at hdup
        have hdup2 : hasKey st.tasks name = false := by simpa using hdup
        have heq : processTaskSection d name toolName inputs outputs attrs st
            = emit { (taskConfigure d name tool inputs outputs attrs st).1 with
                tasks := (taskConfigure d name tool inputs outputs attrs st).1.tasks
                  ++ [(name, Task.mk
                        (taskConfigure d name tool inputs outputs attrs st).2.1
                        name toolName
                        (taskConfigure d name tool inputs outputs attrs st).2.2.1
                        (taskConfigure d name tool inputs outputs attrs st).2.2.2)] }
              (Event.loadedTaskEvt
                (taskConfigure d name tool inputs outputs attrs st).2.1 name) := by
          simp [processTaskSection, hl, hdup2]
        rw [heq]
        refine inv_of_task_extension st _ h name (tool.taskAttrOk name) attrs Δ
          [Event.loadedTaskEvt st.taskCounter name]
          (taskConfigure d name tool inputs outputs attrs st).2.2.1
          (taskConfigure d name tool inputs outputs attrs st).2.2.2
          "" ?_ hΔ (Or.inr rfl) ?_ ?_ ?_ ?_ ?_
        · simp [htr, List.append_assoc]
        · simp
        · simpa using hnodesD
        · simpa using h.targetsD
        · have hfresh : hasKey st.tasks name = false := by
            simpa using hdup
          simp only [emit_tasks, taskConfigure_tasks]
          exact distinctKeys_register st.tasks name _ hfresh h.tasksD
        · simpa using h.toolsD

/-- Processing one section preserves the loader invariant. -/
lemma inv_processSection (d : BuildFileDelegate) (sec : FileSection)
    (st : LoadState) (h : Inv st) : Inv (processSection d sec st) := by
  cases sec with
  | toolSec n a => exact inv_processToolSection d n a st h
  | nodeSec n a => exact inv_processNodeSection d n a st h
  | targetSec n ns => exact inv_processTargetSection n ns st h
  | taskSec n tn i o a => exact inv_processTaskSection d n tn i o a st h

/-- Processing any list of sections preserves the loader invariant. -/
lemma inv_processSections (d : BuildFileDelegate) (secs : List FileSection)
    (st : LoadState) (h : Inv st) : Inv (processSections d secs st) := by
  induction secs generalizing st with
  | nil => simpa [processSections] using h
  | cons s rest ih =>
      exact ih (processSection d s st) (inv_processSection d s st h)

/-- The state right after the client declaration satisfies the invariant. -/
lemma inv_clientStep (c : ClientDecl) : Inv (clientStep c) := by
  refine ⟨?_, ?_, ?_, ?_, ?_, ?_, ?_⟩
  · intro i
    exact Or.inl (by simp [clientStep, initialState, taskEvents, belongsTo])
  · intro i _
    simp [clientStep, initialState, taskEvents, belongsTo]
  · intro name v props hmem
    simp only [clientStep, initialState, emit_trace, List.nil_append,
      List.mem_singleton] at hmem
    cases hmem
    exact Nat.mod_lt _ (by norm_num [UINT32_SIZE])
  · simp [clientStep, initialState, distinctKeys]
  · simp [clientStep, initialState, distinctKeys]
  · simp [clientStep, initialState, distinctKeys]
  · simp [clientStep, initialState, distinctKeys]

/-- The final state of any load satisfies the invariant. -/
lemma inv_load_state (d : BuildFileDelegate) (c : ClientDecl)
    (secs : List FileSection) : Inv (load d c secs).2 := by
  by_cases hcl : d.configureClient c.name (c.version % UINT32_SIZE) c.properties
      = true
  · simp only [load, hcl, if_pos]
    exact inv_processSections d secs (clientStep c) (inv_clientStep c)
  · rw [Bool.not_eq_true] at hcl
    simp only [load, hcl, Bool.false_eq_true, if_false]
    refine inv_of_plain_extension (clientStep c) _ (inv_clientStep c)
      [Event.errorEvt clientRejectedMsg] ?_ ?_ ?_ ?_ ?_ ?_ ?_
    · simp
    · exact plainEvents_single _ (by simp [PlainEvt])
    · simp
    · simp [clientStep, initialState, distinctKeys]
    · simp [clientStep, initialState, distinctKeys]
    · simp [clientStep, initialState, distinctKeys]
    · simp [clientStep, initialState, distinctKeys]

/-- The configuration events of an attribute trace, failures filtered out:
one call per pair, in the original order, regardless of failures. -/
lemma attrEventTrace_config (mk : String → String → Event)
    (ok : String → String → Bool) (attrs : List (String × String))
    (hmk : ∀ k v, isErrorEvt (mk k v) = false) :
    (attrEventTrace mk ok attrs).filter (fun e => ! isErrorEvt e)
      = attrs.map (fun p => mk p.1 p.2) := by
  induction attrs with
  | nil => simp [attrEventTrace]
  | cons p rest ih =>
      obtain ⟨k, v⟩ := p
      by_cases h : ok k v = true
      · simp [attrEventTrace, h, List.filter_cons, hmk, ih]
      · rw [Bool.not_eq_true] at h
        have hm : (match mk k v with
            | Event.errorEvt _ => true
            | _ => false) = false := hmk k v
        simp [attrEventTrace, h, List.filter_cons, List.filter_append,
          isErrorEvt, hm]
        exact ih

/-! ## Concrete instruments for evaluating the definitions -/

/-- A concrete tool accepting every attribute. -/
def sampleTool : Tool :=
  { name := "shell", attrOk := fun _ _ => true, taskAttrOk := fun _ _ _ => true }

/-- A concrete node accepting every attribute. -/
def sampleNode : Node :=
  { name := "a", attrOk := fun _ _ => true }

/-- A delegate accepting every client and resolving every tool and node. -/
def acceptDelegate : BuildFileDelegate :=
  { configureClient := fun _ _ _ => true
    lookupTool := fun n =>
      some { name := n, attrOk := fun _ _ => true, taskAttrOk := fun _ _ _ => true }
    lookupNode := fun n _ => some { name := n, attrOk := fun _ _ => true } }

/-- A delegate rejecting every client. -/
def rejectDelegate : BuildFileDelegate :=
  { configureClient := fun _ _ _ => false
    lookupTool := fun _ => none
    lookupNode := fun _ _ => none }

/-- A sample decoded client declaration. -/
def sampleClient : ClientDecl :=
  { name := "client", version := 1, properties := [] }

/-- A state with one entity registered in each of the four collections. -/
def dupState : LoadState :=
  { nodes := [("a", sampleNode)]
    targets := [("all", Target.mk "all" ["b"])]
    tasks := [("build", Task.mk 0 "build" "shell" [] [])]
    tools := [("shell", sampleTool)]
    taskCounter := 1
    trace := [] }

/-! ## The claims -/

/-- C1: a load returns success if and only if the client configuration was
accepted and no error was recorded afterwards; regardless of the outcome
the returned state carries every entity constructed before the stop point:
the fully processed collections when the client step succeeded, and the
empty collections when the client step - the only fatal point - was
rejected, so all four accessors expose the partial results. -/
theorem load_success_iff_no_error (d : BuildFileDelegate) (c : ClientDecl)
    (secs : List FileSection) :
    ((load d c secs).1 = true ↔
      d.configureClient c.name (c.version % UINT32_SIZE) c.properties = true
        ∧ errorCount (load d c secs).2 = 0)
    ∧ (d.configureClient c.name (c.version % UINT32_SIZE) c.properties = true →
        (load d c secs).2 = processSections d secs (clientStep c))
    ∧ (d.configureClient c.name (c.version % UINT32_SIZE) c.properties = false →
        getNodes (load d c secs).2 = [] ∧ getTargets (load d c secs).2 = []
          ∧ getTasks (load d c secs).2 = [] ∧ getTools (load d c secs).2 = []) := by
  by_cases hcl : d.configureClient c.name (c.version % UINT32_SIZE) c.properties
      = true
  · refine ⟨?_, fun _ => by simp [load, hcl], fun hfalse => ?_⟩
    · simp [load, hcl]
    · rw [hcl] at hfalse
      cases hfalse
  · rw [Bool.not_eq_true] at hcl
    refine ⟨?_, fun htrue => ?_, fun _ => ?_⟩
    · simp [load, hcl]
    · rw [hcl] at htrue
      cases htrue
    · simp [load, hcl, getNodes, getTargets, getTasks, getTools, clientStep,
        initialState]

theorem load_success_iff_no_error_witness :
    (load acceptDelegate sampleClient []).2
        = processSections acceptDelegate [] (clientStep sampleClient)
    ∧ (getNodes (load rejectDelegate sampleClient []).2 = []
        ∧ getTargets (load rejectDelegate sampleClient []).2 = []
        ∧ getTasks (load rejectDelegate sampleClient []).2 = []
        ∧ getTools (load rejectDelegate sampleClient []).2 = []) :=
  ⟨(load_success_iff_no_error acceptDelegate sampleClient []).2.1 rfl,
   (load_success_iff_no_error rejectDelegate sampleClient []).2.2 rfl⟩

/-- C2: when configureClient returns false the load stops immediately with
failure and no entity is registered: all four collections are empty. -/
theorem client_rejection_aborts (d : BuildFileDelegate) (c : ClientDecl)
    (secs : List FileSection)
    (h : d.configureClient c.name (c.version % UINT32_SIZE) c.properties = false) :
    (load d c secs).1 = false
    ∧ getNodes (load d c secs).2 = [] ∧ getTargets (load d c secs).2 = []
    ∧ getTasks (load d c secs).2 = [] ∧ getTools (load d c secs).2 = [] := by
  simp [load, h, getNodes, getTargets, getTasks, getTools, clientStep,
    initialState]

theorem client_rejection_aborts_witness :
    (load rejectDelegate sampleClient
        [FileSection.toolSec "shell" [], FileSection.targetSec "all" ["b"]]).1
      = false
    ∧ getNodes (load rejectDelegate sampleClient
        [FileSection.toolSec "shell" [], FileSection.targetSec "all" ["b"]]).2 = []
    ∧ getTargets (load rejectDelegate sampleClient
        [FileSection.toolSec "shell" [], FileSection.targetSec "all" ["b"]]).2 = []
    ∧ getTasks (load rejectDelegate sampleClient
        [FileSection.toolSec "shell" [], FileSection.targetSec "all" ["b"]]).2 = []
    ∧ getTools (load rejectDelegate sampleClient
        [FileSection.toolSec "shell" [], FileSection.targetSec "all" ["b"]]).2 = [] :=
  client_rejection_aborts rejectDelegate sampleClient
    [FileSection.toolSec "shell" [], FileSection.targetSec "all" ["b"]] rfl

/-- C3: a task section naming a tool absent from the registered tool set
records exactly one error (the state changes by the error event alone),
registers no Task, and processing of the subsequent sections continues from
that state. -/
theorem undeclared_tool_skips_section (d : BuildFileDelegate) (st : LoadState)
    (name toolName : String) (inputs outputs : List String)
    (attrs : List (String × String)) (rest : List FileSection)
    (h : lookupKey st.tools toolName = none) :
    processTaskSection d name toolName inputs outputs attrs st
        = recordError st (unknownToolMsg toolName)
    ∧ (processTaskSection d name toolName inputs outputs attrs st).tasks = st.tasks
    ∧ errorCount (processTaskSection d name toolName inputs outputs attrs st)
        = errorCount st + 1
    ∧ processSections d
        (FileSection.taskSec name toolName inputs outputs attrs :: rest) st
      = processSections d rest
          (processTaskSection d name toolName inputs outputs attrs st) := by
  refine ⟨?_, ?_, ?_, rfl⟩
  · simp [processTaskSection, h]
  · simp [processTaskSection, h]
  · simp [processTaskSection, h]

theorem undeclared_tool_skips_section_witness :
    processTaskSection acceptDelegate "build" "missing" ["a"] ["b"] [] initialState
        = recordError initialState (unknownToolMsg "missing")
    ∧ (processTaskSection acceptDelegate "build" "missing" ["a"] ["b"] []
        initialState).tasks = initialState.tasks
    ∧ errorCount (processTaskSection acceptDelegate "build" "missing" ["a"] ["b"] []
        initialState) = errorCount initialState + 1
    ∧ processSections acceptDelegate
        [FileSection.taskSec "build" "missing" ["a"] ["b"] []] initialState
      = processSections acceptDelegate []
          (processTaskSection acceptDelegate "build" "missing" ["a"] ["b"] []
            initialState) :=
  undeclared_tool_skips_section acceptDelegate initialState "build" "missing"
    ["a"] ["b"] [] [] rfl

/-- C4: resolving a task input or output name reuses an already registered
node without any lookupNode call, and otherwise makes exactly one
lookupNode call with isImplicit = true and registers the returned node, so
the name appears in the node collection afterwards. -/
theorem implicit_node_resolution (d : BuildFileDelegate) (st : LoadState)
    (name : String) :
    (hasKey st.nodes name = true → resolveNodeName d name st = (st, some name))
    ∧ (hasKey st.nodes name = false →
        ∀ node, d.lookupNode name true = some node →
          (resolveNodeName d name st).1.trace
              = st.trace ++ [Event.lookupNodeEvt name true]
          ∧ (resolveNodeName d name st).1.nodes = st.nodes ++ [(name, node)]
          ∧ hasKey (resolveNodeName d name st).1.nodes name = true
          ∧ (resolveNodeName d name st).2 = some name) := by
  constructor
  · intro h
    exact resolveNodeName_hasKey d name st h
  · intro h node hl
    rw [resolveNodeName_new_found d name st node h hl]
    refine ⟨rfl, rfl, ?_, rfl⟩
    simp [hasKey, List.any_append]

theorem implicit_node_resolution_witness :
    (resolveNodeName acceptDelegate "a" initialState).1.trace
        = initialState.trace ++ [Event.lookupNodeEvt "a" true]
    ∧ (resolveNodeName acceptDelegate "a" initialState).1.nodes
        = initialState.nodes
          ++ [("a", Node.mk "a" (fun _ _ => true))]
    ∧ hasKey (resolveNodeName acceptDelegate "a" initialState).1.nodes "a" = true
    ∧ (resolveNodeName acceptDelegate "a" initialState).2 = some "a" :=
  (implicit_node_resolution acceptDelegate initialState "a").2 rfl
    (Node.mk "a" (fun _ _ => true)) rfl

/-- C5: a false return of configureAttribute on one pair records an error
but every remaining pair of the section is still applied, in the original
order: the trace grows by one configuration event per pair with one error
event per failed pair interleaved, and the configuration events alone are
exactly the pairs in order. -/
theorem attr_failure_continues (mk : String → String → Event)
    (ok : String → String → Bool) (attrs : List (String × String))
    (st : LoadState) (hmk : ∀ k v, isErrorEvt (mk k v) = false) :
    (applyAttrs mk ok attrs st).trace = st.trace ++ attrEventTrace mk ok attrs
    ∧ errorCount (applyAttrs mk ok attrs st)
        = errorCount st + attrs.countP (fun p => ! ok p.1 p.2)
    ∧ (attrEventTrace mk ok attrs).filter (fun e => ! isErrorEvt e)
        = attrs.map (fun p => mk p.1 p.2) :=
  ⟨applyAttrs_trace mk ok attrs st,
   applyAttrs_errorCount mk ok attrs st hmk,
   attrEventTrace_config mk ok attrs hmk⟩

theorem attr_failure_continues_witness :
    (applyAttrs (fun k v => Event.toolAttrEvt "shell" k v)
        (fun k _ => ! (k == "bad")) [("x", "1"), ("bad", "2"), ("y", "3")]
        initialState).trace
      = initialState.trace
        ++ attrEventTrace (fun k v => Event.toolAttrEvt "shell" k v)
            (fun k _ => ! (k == "bad")) [("x", "1"), ("bad", "2"), ("y", "3")]
    ∧ errorCount (applyAttrs (fun k v => Event.toolAttrEvt "shell" k v)
        (fun k _ => ! (k == "bad")) [("x", "1"), ("bad", "2"), ("y", "3")]
        initialState)
      = errorCount initialState
        + ([("x", "1"), ("bad", "2"), ("y", "3")].countP
            (fun p => ! (! (p.1 == "bad"))))
    ∧ (attrEventTrace (fun k v => Event.toolAttrEvt "shell" k v)
          (fun k _ => ! (k == "bad"))
          [("x", "1"), ("bad", "2"), ("y", "3")]).filter
        (fun e => ! isErrorEvt e)
      = [("x", "1"), ("bad", "2"), ("y", "3")].map
          (fun p => Event.toolAttrEvt "shell" p.1 p.2) :=
  attr_failure_continues (fun k v => Event.toolAttrEvt "shell" k v)
    (fun k _ => ! (k == "bad")) [("x", "1"), ("bad", "2"), ("y", "3")]
    initialState (fun _ _ => rfl)

/-- C6: for every Task object constructed during a load, the calls made on
it in the event trace are its creation, then all its attribute
configuration events, then exactly one configureInputs call, then exactly
one configureOutputs call, then at most one loadedTask notification - so
each list is set at most once (exactly once when the object exists, i.e.
when the task section was not skipped), inputs before outputs, and both
with all attribute configuration before the loaded notification. -/
theorem task_configuration_lifecycle (d : BuildFileDelegate) (c : ClientDecl)
    (secs : List FileSection) (i : Nat) :
    TaskPattern i (taskEvents i (load d c secs).2.trace) :=
  (inv_load_state d c secs).pattern i

/-- C7: a target section stores the ordered node-name list verbatim in the
registered Target, resolves no name to a Node (its trace growth contains no
lookupNode event) and adds nothing to the node collection. -/
theorem target_section_stores_names (name : String) (nodeNames : List String)
    (st : LoadState) :
    (processTargetSection name nodeNames st).nodes = st.nodes
    ∧ (∃ Δ, (processTargetSection name nodeNames st).trace = st.trace ++ Δ
        ∧ ∀ e ∈ Δ, ∀ n b, ¬ e = Event.lookupNodeEvt n b)
    ∧ (hasKey st.targets name = false →
        lookupKey (processTargetSection name nodeNames st).targets name
          = some (Target.mk name nodeNames)) := by
  by_cases hdup : hasKey st.targets name = true
  · refine ⟨by simp [processTargetSection, hdup],
      ⟨[Event.errorEvt (duplicateMsg name)],
        by simp [processTargetSection, hdup], ?_⟩, fun hfresh => ?_⟩
    · intro e he n b
      rcases List.mem_singleton.mp he with rfl
      simp
    · rw [hdup] at hfresh
      cases hfresh
  · rw [Bool.not_eq_true] at hdup
    refine ⟨by simp [processTargetSection, hdup],
      ⟨[Event.loadedTargetEvt name],
        by simp [processTargetSection, hdup], ?_⟩, fun _ => ?_⟩
    · intro e he n b
      rcases List.mem_singleton.mp he with rfl
      simp
    · simp only [processTargetSection, hdup, Bool.false_eq_true, if_false,
        emit_targets]
      exact lookupKey_register st.targets name (Target.mk name nodeNames) hdup

theorem target_section_stores_names_witness :
    lookupKey (processTargetSection "all" ["b", "a"] initialState).targets "all"
      = some (Target.mk "all" ["b", "a"]) :=
  (target_section_stores_names "all" ["b", "a"] initialState).2.2 rfl

/-- C8: at every point during and after a load, each of the four
collections holds at most one entity per name (their key lists are
pairwise distinct, a separate namespace per collection), and a
registration under an already-present name records an error and leaves the
collection unchanged instead of adding a second entry. -/
theorem unique_names_per_collection (d : BuildFileDelegate) (c : ClientDecl)
    (pre : List FileSection) :
    (distinctKeys (processSections d pre (clientStep c)).nodes
      ∧ distinctKeys (processSections d pre (clientStep c)).targets
      ∧ distinctKeys (processSections d pre (clientStep c)).tasks
      ∧ distinctKeys (processSections d pre (clientStep c)).tools)
    ∧ (distinctKeys (load d c pre).2.nodes
      ∧ distinctKeys (load d c pre).2.targets
      ∧ distinctKeys (load d c pre).2.tasks
      ∧ distinctKeys (load d c pre).2.tools)
    ∧ (∀ (st : LoadState) (n : String) (ns : List String),
        hasKey st.targets n = true →
          (processTargetSection n ns st).targets = st.targets
          ∧ errorCount st + 1 ≤ errorCount (processTargetSection n ns st))
    ∧ (∀ (st : LoadState) (n : String) (a : List (String × String)),
        hasKey st.tools n = true →
          (processToolSection d n a st).tools = st.tools
          ∧ errorCount st + 1 ≤ errorCount (processToolSection d n a st))
    ∧ (∀ (st : LoadState) (n : String) (a : List (String × String)),
        hasKey st.nodes n = true →
          (processNodeSection d n a st).nodes = st.nodes
          ∧ errorCount st + 1 ≤ errorCount (processNodeSection d n a st))
    ∧ (∀ (st : LoadState) (n tn : String) (i o : List String)
          (a : List (String × String)),
        hasKey st.tasks n = true →
          (processTaskSection d n tn i o a st).tasks = st.tasks
          ∧ errorCount st + 1 ≤ errorCount (processTaskSection d n tn i o a st)) := by
  have hInv := inv_processSections d pre (clientStep c) (inv_clientStep c)
  have hLoad := inv_load_state d c pre
  refine ⟨⟨hInv.nodesD, hInv.targetsD, hInv.tasksD, hInv.toolsD⟩,
    ⟨hLoad.nodesD, hLoad.targetsD, hLoad.tasksD, hLoad.toolsD⟩,
    ?_, ?_, ?_, ?_⟩
  · intro st n ns hdup
    constructor
    · simp [processTargetSection, hdup]
    · simp [processTargetSection, hdup]
  · intro st n a hdup
    cases hl : d.lookupTool n with
    | none =>
        constructor
        · simp [processToolSection, hl]
        · simp [processToolSection, hl]
    | some tool =>
        have herr := applyAttrs_errorCount (fun k v => Event.toolAttrEvt n k v)
          tool.attrOk a (emit st (Event.lookupToolEvt n)) (fun k v => rfl)
        constructor
        · simp [processToolSection, hl, hdup]
        · have heq : processToolSection d n a st
              = recordError (applyAttrs (fun k v => Event.toolAttrEvt n k v)
                  tool.attrOk a (emit st (Event.lookupToolEvt n)))
                  (duplicateMsg n) := by
            simp [processToolSection, hl, hdup]
          rw [heq, errorCount_recordError, herr, errorCount_emit]
          simp only [isErrorEvt]
          omega
  · intro st n a hdup
    cases hl : d.lookupNode n false with
    | none =>
        constructor
        · simp [processNodeSection, hl]
        · simp [processNodeSection, hl]
    | some node =>
        have herr := applyAttrs_errorCount (fun k v => Event.nodeAttrEvt n k v)
          node.attrOk a (emit st (Event.lookupNodeEvt n false)) (fun k v => rfl)
        constructor
        · simp [processNodeSection, hl, hdup]
        · have heq : processNodeSection d n a st
              = recordError (applyAttrs (fun k v => Event.nodeAttrEvt n k v)
                  node.attrOk a (emit st (Event.lookupNodeEvt n false)))
                  (duplicateMsg n) := by
            simp [processNodeSection, hl, hdup]
          rw [heq, errorCount_recordError, herr, errorCount_emit]
          simp only [isErrorEvt]
          omega
  · intro st n tn i o a hdup
    cases hl : lookupKey st.tools tn with
    | none =>
        constructor
        · simp [processTaskSection, hl]
        · simp [processTaskSection, hl]
    | some tool =>
        obtain ⟨Δ, htr, hΔ⟩ := taskConfigure_trace d n tool i o a st
        have heq : processTaskSection d n tn i o a st
            = recordError (taskConfigure d n tool i o a st).1 (duplicateMsg n) := by
          simp [processTaskSection, hl, hdup]
        constructor
        · simp [heq, hdup]
        · have hmon : errorCount st ≤ errorCount (taskConfigure d n tool i o a st).1 := by
            simp only [errorCount]
            rw [htr, List.countP_append]
            exact Nat.le_add_right _ _
          rw [heq, errorCount_recordError]
          omega

theorem unique_names_per_collection_witness :
    (processTargetSection "all" ["x"] dupState).targets = dupState.targets
    ∧ (processToolSection acceptDelegate "shell" [] dupState).tools
        = dupState.tools
    ∧ (processNodeSection acceptDelegate "a" [] dupState).nodes = dupState.nodes
    ∧ (processTaskSection acceptDelegate "build" "shell" [] [] [] dupState).tasks
        = dupState.tasks :=
  ⟨((unique_names_per_collection acceptDelegate sampleClient []).2.2.1
      dupState "all" ["x"] rfl).1,
   ((unique_names_per_collection acceptDelegate sampleClient []).2.2.2.1
      dupState "shell" [] rfl).1,
   ((unique_names_per_collection acceptDelegate sampleClient []).2.2.2.2.1
      dupState "a" [] rfl).1,
   ((unique_names_per_collection acceptDelegate sampleClient []).2.2.2.2.2
      dupState "build" "shell" [] [] [] rfl).1⟩

/-- C9: the lookupNode callback declares the default isImplicit = false, so
a call omitting the second argument is an explicit-declaration lookup; only
a call explicitly passing true requests implicit-node semantics. -/
theorem lookupNode_default_is_explicit (d : BuildFileDelegate) (name : String) :
    lookupNode_isImplicit_default = false
    ∧ lookupNodeDefaulted d name = d.lookupNode name false :=
  ⟨rfl, rfl⟩

/-- C10: the version argument of configureClient crosses a uint32_t
interface: every configureClient event of every load carries a version
value below 2 ^ 32. -/
theorem client_version_is_uint32 (d : BuildFileDelegate) (c : ClientDecl)
    (secs : List FileSection) (name : String) (v : Nat)
    (props : List (String × String))
    (hmem : Event.configureClientEvt name v props ∈ (load d c secs).2.trace) :
    v < UINT32_SIZE :=
  (inv_load_state d c secs).clientBound name v props hmem

theorem client_version_is_uint32_witness : (1 : Nat) < UINT32_SIZE :=
  client_version_is_uint32 acceptDelegate sampleClient [] "client" 1 []
    (by decide)

end llbuild
